import Mathlib

/-!
Verification of the compaction-planning core (split-and-merge planner) and the
incidental numeric query functions (`Clamp`, `Sgn`) of this repository.

The planner itself is exercised only through its test surface in the repository
sources available here, so its behaviour is modelled from the specification
(each such definition's doc comment says so).  The numeric functions are
embedded directly from `pkg/streamingpromql/functions/math.go`.
-/

namespace Compactor

/-- A block descriptor: immutable metadata of one persisted block.
Mirrors the fields used by the planner test in the repository sources
(`ULID`, `MinTime`, `MaxTime`, `Version`): `id` is the string-rendered unique
identifier, `minTime`/`maxTime` the half-open interval bounds, and
`formatVersion` an opaque version tag carried through untouched. -/
structure BlockDescriptor where
  id : String
  minTime : Int
  maxTime : Int
  formatVersion : Nat
deriving DecidableEq, Repr, Inhabited

/-- The Range Hierarchy: an ordered list of compaction-level durations,
as passed to `NewSplitAndMergePlanner` in the test (`ranges []int64`). -/
structure RangeHierarchy where
  ranges : List Int
deriving DecidableEq, Repr

/-- Modelled from the spec: `largest()` returns `r(k)`, the last (maximum)
range of the hierarchy.  (Defaults to `0` on an empty hierarchy, which the
spec rules out as a configuration error.) -/
def RangeHierarchy.largest (h : RangeHierarchy) : Int :=
  h.ranges.getLastD 0

/-- Modelled from the spec: `bucketFor(anchorTime)` computes the aligned
window `(bucketStart, bucketEnd)` with
`bucketStart = floor(anchorTime / r) * r` and `bucketEnd = bucketStart + r`.
`Int.fdiv` is floor division on integers. -/
def bucketFor (r anchor : Int) : Int × Int :=
  (Int.fdiv anchor r * r, Int.fdiv anchor r * r + r)

/-- The reference bucket of a planning call: derived from the `minTime` of the
first (smallest `minTime`) descriptor of the set, per the spec. -/
def refBucket (hier : RangeHierarchy) (blocks : List BlockDescriptor) : Int × Int :=
  bucketFor hier.largest (blocks.headD default).minTime

/-- Containment of a descriptor's interval in a bucket, per the spec invariant:
`bucketStart <= minTime` and `maxTime <= bucketEnd`. -/
def contained (bStart bEnd : Int) (b : BlockDescriptor) : Bool :=
  decide (bStart ≤ b.minTime) && decide (b.maxTime ≤ bEnd)

/-- Modelled from the spec: the planner's per-call error taxonomy — a range
violation carrying the offending block's id, its interval and the violated
bucket's bounds, or a cancellation error, as distinct structured kinds. -/
inductive PlanError where
  | rangeViolation (id : String) (minTime maxTime bStart bEnd : Int)
  | canceled
deriving DecidableEq, Repr

/-- Modelled from the spec: the deterministic operator-facing rendering of a
planner error; a range violation renders as
`block <id> with time range <minTime>:<maxTime> is outside the largest expected range <bucketStart>:<bucketEnd>`. -/
def renderError : PlanError → String
  | .rangeViolation i mn mx s e =>
      "block " ++ i ++ " with time range " ++ toString mn ++ ":" ++ toString mx ++
        " is outside the largest expected range " ++ toString s ++ ":" ++ toString e
  | .canceled => "context canceled"

/-- An execution context, modelled as the answer to "has the context been
observed canceled at the check before evaluating descriptor `i`?". -/
def Ctx : Type := Nat → Bool

/-- The never-canceled context (`context.Background()` in the test). -/
def bgCtx : Ctx := fun _ => false

/-- Modelled from the spec: the validation walk of `Plan`.  Descriptors are
walked in order; cancellation is checked between descriptor evaluations; the
first descriptor whose interval is not contained in the reference bucket
produces a range-violation error; otherwise the walk succeeds (`none`). -/
def planWalk (ctx : Ctx) (bStart bEnd : Int) : Nat → List BlockDescriptor → Option PlanError
  | _, [] => none
  | i, b :: rest =>
      if ctx i then some .canceled
      else if contained bStart bEnd b then planWalk ctx bStart bEnd (i + 1) rest
      else some (.rangeViolation b.id b.minTime b.maxTime bStart bEnd)

/-- Modelled from the spec: `Plan(context, blocksByMinTime)`.  An empty input
returns an empty plan and no error; otherwise the reference bucket is derived
from the first descriptor, the descriptors are validated in order (fail fast),
and on success the input is passed through unchanged as the plan's blocks. -/
def Plan (ctx : Ctx) (hier : RangeHierarchy) (blocks : List BlockDescriptor) :
    Except PlanError (List BlockDescriptor) :=
  match blocks with
  | [] => .ok []
  | _ :: _ =>
      match planWalk ctx (refBucket hier blocks).1 (refBucket hier blocks).2 0 blocks with
      | some e => .error e
      | none => .ok blocks

/-- Modelled from the spec: the group structure of a pass-through plan.  A
Compaction Plan is an ordered collection of Compaction Groups; the minimal
evidenced contract is the no-op pass-through plan, whose blocks form a single
group (and an empty plan has no groups). -/
def planGroups (plan : List BlockDescriptor) : List (List BlockDescriptor) :=
  if plan.isEmpty then [] else [plan]

/-- The input precondition: descriptors sorted ascending by `minTime`. -/
def sortedByMinTime (blocks : List BlockDescriptor) : Prop :=
  blocks.Pairwise (fun a b => a.minTime ≤ b.minTime)

instance (blocks : List BlockDescriptor) : Decidable (sortedByMinTime blocks) := by
  unfold sortedByMinTime
  infer_instance

/-- The hierarchy used throughout the repository's planner test: `[20, 40, 60]`. -/
def testHier : RangeHierarchy := ⟨[20, 40, 60]⟩

/-- Shorthand for a test block descriptor with format version 1. -/
def blk (i : String) (mn mx : Int) : BlockDescriptor := ⟨i, mn, mx, 1⟩

/-- The test's "blocks fit within the largest range" input. -/
def passBlocks : List BlockDescriptor :=
  [blk "block1" 10 20, blk "block2" 20 40, blk "block3" 20 60]

/-- The test's "source blocks are smaller then the largest range but compacted
block is larger" input. -/
def failBlocks : List BlockDescriptor :=
  [blk "block1" 10 20, blk "block2" 30 40, blk "block3" 50 70]

/-- The test's "misaligned" input: blocks `(50,70)`, `(70,80)`. -/
def misalignedBlocks : List BlockDescriptor :=
  [blk "block1" 50 70, blk "block2" 70 80]

/-- A context observed canceled exactly at the check before descriptor 1. -/
def cancelAtOne : Ctx := fun n => n == 1

end Compactor

namespace Compactor

theorem planWalk_none_of_all (s e : Int) (l : List BlockDescriptor) :
    ∀ i : Nat, (∀ b ∈ l, contained s e b = true) → planWalk bgCtx s e i l = none := by
  induction l with
  | nil => intro i _; rfl
  | cons b rest ih =>
      intro i h
      have hb : contained s e b = true := h b (List.mem_cons_self _ _)
      have hrest := ih (i + 1) fun x hx => h x (List.mem_cons_of_mem _ hx)
      simp [planWalk, bgCtx, hb, hrest]

theorem planWalk_find (s e : Int) (l : List BlockDescriptor) (b : BlockDescriptor) :
    ∀ i : Nat, l.find? (fun x => ! contained s e x) = some b →
      planWalk bgCtx s e i l =
        some (.rangeViolation b.id b.minTime b.maxTime s e) := by
  induction l with
  | nil => intro i h; simp [List.find?] at h
  | cons a rest ih =>
      intro i h
      by_cases hc : contained s e a = true
      · rw [List.find?_cons_of_neg _ (by simp [hc])] at h
        have := ih (i + 1) h
        simp [planWalk, bgCtx, hc, this]
      · rw [List.find?_cons_of_pos _ (by simp [hc])] at h
        cases h
        simp [planWalk, bgCtx, hc]

theorem planWalk_canceled (ctx : Ctx) (s e : Int) (l : List BlockDescriptor) :
    ∀ i j : Nat, j < l.length → ctx (i + j) = true →
      (∀ b ∈ l.take j, contained s e b = true) →
      planWalk ctx s e i l = some .canceled := by
  induction l with
  | nil => intro i j hj _ _; exact absurd hj (by simp)
  | cons a rest ih =>
      intro i j hj hcanc hcont
      by_cases h0 : ctx i = true
      · simp [planWalk, h0]
      · cases j with
        | zero => rw [Nat.add_zero] at hcanc; exact absurd hcanc h0
        | succ j' =>
            have ha : contained s e a = true := hcont a (by simp [List.take])
            have hrec := ih (i + 1) j' (by simpa using hj)
              (by have he : i + 1 + j' = i + (j' + 1) := by omega
                  rw [he]; exact hcanc)
              (fun x hx => hcont x (by simp [List.take]; exact Or.inr hx))
            simp [planWalk, h0, ha, hrec]

theorem Plan_ok_eq (ctx : Ctx) (hier : RangeHierarchy) (blocks plan : List BlockDescriptor)
    (h : Plan ctx hier blocks = .ok plan) : plan = blocks := by
  cases blocks with
  | nil =>
      unfold Plan at h
      exact (Except.ok.inj h).symm
  | cons a rest =>
      unfold Plan at h
      cases hw : planWalk ctx (refBucket hier (a :: rest)).1 (refBucket hier (a :: rest)).2 0
          (a :: rest) with
      | some e => rw [hw] at h; cases h
      | none => rw [hw] at h; exact (Except.ok.inj h).symm

/-- C1: for every descriptor set sorted ascending by `minTime` in which every
descriptor's interval is contained in the bucket derived from the first
descriptor's `minTime`, `Plan` (with an uncanceled context) returns no error
and a plan whose blocks are exactly the input descriptors in the same order. -/
theorem C1_plan_passthrough (hier : RangeHierarchy) (blocks : List BlockDescriptor)
    (hsort : sortedByMinTime blocks)
    (hall : ∀ b ∈ blocks,
      contained (refBucket hier blocks).1 (refBucket hier blocks).2 b = true) :
    Plan bgCtx hier blocks = .ok blocks := by
  cases blocks with
  | nil => rfl
  | cons a rest =>
      unfold Plan
      rw [planWalk_none_of_all _ _ _ 0 hall]

/-- Witness for C1 at the test's "blocks fit within the largest range" input. -/
theorem C1_witness : Plan bgCtx testHier passBlocks = .ok passBlocks :=
  C1_plan_passthrough testHier passBlocks (by decide) (by decide)

/-- C2: for every sorted descriptor set containing a block whose interval is
not contained in the reference bucket, `Plan` returns an error naming the
first such block (the first in list order, hence the first by ascending
`minTime`), with bucket bounds always derived from the set's overall first
descriptor, and returns no plan. -/
theorem C2_first_offender (hier : RangeHierarchy) (blocks : List BlockDescriptor)
    (b : BlockDescriptor) (hsort : sortedByMinTime blocks)
    (hfind : blocks.find?
      (fun x => ! contained (refBucket hier blocks).1 (refBucket hier blocks).2 x) = some b) :
    Plan bgCtx hier blocks =
      .error (.rangeViolation b.id b.minTime b.maxTime
        (refBucket hier blocks).1 (refBucket hier blocks).2) := by
  cases blocks with
  | nil => simp [List.find?] at hfind
  | cons a rest =>
      unfold Plan
      rw [planWalk_find _ _ _ b 0 hfind]

/-- Witness for C2 at the test's input whose third block `(50,70)` leaks past
the largest range: the error names `block3` and the bucket `0:60` derived from
the first block's `minTime = 10`. -/
theorem C2_witness :
    Plan bgCtx testHier failBlocks = .error (.rangeViolation "block3" 50 70 0 60) :=
  C2_first_offender testHier failBlocks (blk "block3" 50 70) (by decide) (by decide)

/-- C3: the reference bucket is floor alignment of the anchor to the largest
range: `bucketStart = fdiv(anchor, r) * r` is the unique multiple of `r`
with `bucketStart ≤ anchor < bucketStart + r`, and `bucketEnd = bucketStart +
r`; concretely for ranges `[20,40,60]` and first descriptor `minTime = 50` the
bucket is `0:60` (not `50:110`) and the block `(50,70)` fails containment, so
`Plan` rejects it. -/
theorem C3_bucket_alignment :
    (∀ r anchor : Int, bucketFor r anchor =
      (Int.fdiv anchor r * r, Int.fdiv anchor r * r + r)) ∧
    (∀ r : Int, 0 < r → ∀ anchor : Int,
      r ∣ (bucketFor r anchor).1 ∧ (bucketFor r anchor).1 ≤ anchor ∧
        anchor < (bucketFor r anchor).1 + r) ∧
    refBucket testHier misalignedBlocks = (0, 60) ∧
    refBucket testHier misalignedBlocks ≠ (50, 110) ∧
    contained 0 60 (blk "block1" 50 70) = false ∧
    Plan bgCtx testHier misalignedBlocks =
      .error (.rangeViolation "block1" 50 70 0 60) := by
  refine ⟨fun r anchor => rfl, fun r hr anchor => ?_, by decide, by decide, by decide, by rfl⟩
  have hmod : anchor - Int.fdiv anchor r * r = anchor.fmod r := by
    rw [Int.fmod_def]; ring
  have h1 : 0 ≤ anchor.fmod r := Int.fmod_nonneg' anchor hr
  have h2 : anchor.fmod r < r := Int.fmod_lt_of_pos anchor hr
  refine ⟨⟨Int.fdiv anchor r, mul_comm _ _⟩, ?_, ?_⟩
  · show Int.fdiv anchor r * r ≤ anchor
    linarith
  · show anchor < Int.fdiv anchor r * r + r
    linarith

/-- Witness for C3's alignment window at `r = 60`, `anchor = 50`. -/
theorem C3_witness :
    (60 : Int) ∣ (bucketFor 60 50).1 ∧ (bucketFor 60 50).1 ≤ 50 ∧
      (50 : Int) < (bucketFor 60 50).1 + 60 :=
  C3_bucket_alignment.2.1 60 (by decide) 50

/-- C4: for every non-empty Range Hierarchy (and any context), `Plan` on an
empty descriptor set returns an empty plan and no error. -/
theorem C4_empty_input (ctx : Ctx) (hier : RangeHierarchy) (_hne : hier.ranges ≠ []) :
    Plan ctx hier [] = .ok [] := rfl

/-- Witness for C4 at the test hierarchy `[20,40,60]`. -/
theorem C4_witness : testHier.ranges ≠ [] ∧ Plan bgCtx testHier [] = .ok [] :=
  ⟨by decide, C4_empty_input bgCtx testHier (by decide)⟩

/-- C5: the range-violation error returned by `Plan` renders exactly the
message `block <id> with time range <minTime>:<maxTime> is outside the largest
expected range <bucketStart>:<bucketEnd>`, populated with the offending
block's id and interval and the reference bucket's bounds. -/
theorem C5_error_message (hier : RangeHierarchy) (blocks : List BlockDescriptor)
    (b : BlockDescriptor)
    (hfind : blocks.find?
      (fun x => ! contained (refBucket hier blocks).1 (refBucket hier blocks).2 x) = some b) :
    (Plan bgCtx hier blocks).mapError renderError =
      .error ("block " ++ b.id ++ " with time range " ++ toString b.minTime ++ ":" ++
        toString b.maxTime ++ " is outside the largest expected range " ++
        toString (refBucket hier blocks).1 ++ ":" ++ toString (refBucket hier blocks).2) := by
  cases blocks with
  | nil => simp [List.find?] at hfind
  | cons a rest =>
      unfold Plan
      rw [planWalk_find _ _ _ b 0 hfind]
      rfl

/-- Witness for C5: the misaligned test input renders the exact message the
test expects for `block1`. -/
theorem C5_witness :
    (Plan bgCtx testHier misalignedBlocks).mapError renderError =
      .error "block block1 with time range 50:70 is outside the largest expected range 0:60" :=
  C5_error_message testHier misalignedBlocks (blk "block1" 50 70) (by decide)

/-- C6: every successful plan neither reorders nor duplicates the input: its
groups' concatenation is a subsequence of the input, every group is a
non-empty subsequence of the input (so relative order is preserved), distinct
groups are pairwise disjoint, and each descriptor belongs to at most one
group. -/
theorem C6_no_reorder_no_dup (ctx : Ctx) (hier : RangeHierarchy)
    (blocks plan : List BlockDescriptor) (h : Plan ctx hier blocks = .ok plan) :
    (planGroups plan).flatten.Sublist blocks ∧
    (∀ g ∈ planGroups plan, g ≠ [] ∧ g.Sublist blocks) ∧
    List.Pairwise (fun g1 g2 => ∀ x ∈ g1, x ∉ g2) (planGroups plan) ∧
    (∀ x : BlockDescriptor,
      (planGroups plan).countP (fun g => decide (x ∈ g)) ≤ 1) := by
  have hpb : plan = blocks := Plan_ok_eq ctx hier blocks plan h
  subst hpb
  unfold planGroups
  by_cases he : plan.isEmpty
  · simp [he]
  · simp only [he, if_neg, Bool.false_eq_true, not_false_iff, ite_false]
    refine ⟨by simp, ?_, ?_, ?_⟩
    · intro g hg
      rcases List.mem_singleton.mp hg with rfl
      exact ⟨by simpa [List.isEmpty_iff] using he, List.Sublist.refl _⟩
    · exact List.pairwise_singleton _ _
    · intro x
      simp [List.countP_cons]
      split_ifs <;> simp

/-- Witness for C6: the single-group pass-through plan on the test's passing
input is a subsequence of the input. -/
theorem C6_witness : (planGroups passBlocks).flatten.Sublist passBlocks :=
  (C6_no_reorder_no_dup bgCtx testHier passBlocks passBlocks (by rfl)).1

/-- C7: `Plan` is idempotent on successful results: every successful call
passes its input through, so re-running `Plan` on the returned plan yields the
same plan and no error. -/
theorem C7_idempotent (ctx : Ctx) (hier : RangeHierarchy)
    (blocks plan : List BlockDescriptor) (h : Plan ctx hier blocks = .ok plan) :
    Plan ctx hier plan = .ok plan := by
  have hpb : plan = blocks := Plan_ok_eq ctx hier blocks plan h
  subst hpb
  exact h

/-- Witness for C7 on a one-block set that passes validation. -/
theorem C7_witness :
    Plan bgCtx testHier [blk "block1" 0 20] = .ok [blk "block1" 0 20] :=
  C7_idempotent bgCtx testHier [blk "block1" 0 20] [blk "block1" 0 20] (by rfl)

/-- C8: if the context is observed canceled at the check before some
descriptor evaluation (and no earlier descriptor already failed containment),
`Plan` returns the cancellation error — a constructor distinct from every
range violation — and never a (partial) plan.  Cancellation is checked between
descriptor evaluations by construction of the walk. -/
theorem C8_cancellation (ctx : Ctx) (hier : RangeHierarchy)
    (blocks : List BlockDescriptor) (j : Nat) (hj : j < blocks.length)
    (hc : ctx j = true)
    (hcont : ∀ b ∈ blocks.take j,
      contained (refBucket hier blocks).1 (refBucket hier blocks).2 b = true) :
    Plan ctx hier blocks = .error .canceled ∧
    (∀ i : String, ∀ mn mx s e : Int,
      PlanError.canceled ≠ PlanError.rangeViolation i mn mx s e) ∧
    (∀ p : List BlockDescriptor, Plan ctx hier blocks ≠ .ok p) := by
  have hmain : Plan ctx hier blocks = .error .canceled := by
    cases blocks with
    | nil => exact absurd hj (by simp)
    | cons a rest =>
        unfold Plan
        rw [planWalk_canceled ctx _ _ (a :: rest) 0 j hj (by simpa using hc) hcont]
  refine ⟨hmain, ?_, ?_⟩
  · intro i mn mx s e h
    exact PlanError.noConfusion h
  · intro p hp
    rw [hmain] at hp
    exact Except.noConfusion hp

/-- Witness for C8: a context canceled at the check before descriptor 1, on
the test's passing input. -/
theorem C8_witness : Plan cancelAtOne testHier passBlocks = .error .canceled :=
  (C8_cancellation cancelAtOne testHier passBlocks 1 (by decide) (by decide)
    (by decide)).1

end Compactor

namespace Functions

/-- A model of the Go `float64` values reachable by the numeric query
functions under verification.  `Clamp` and `Sgn` perform no arithmetic —
only comparisons, `min`/`max` and the constants `-1`, `0`, `1` — so a value
is either NaN, negative zero, or an exact (rational) number (`num 0` is
positive zero). -/
inductive GoFloat where
  | nan
  | negZero
  | num (q : ℚ)
deriving DecidableEq, Repr, Inhabited

/-- The numeric value of a float, when it has one (NaN has none; both zeros
compare equal to `0`). -/
def GoFloat.toRatOpt : GoFloat → Option ℚ
  | .nan => none
  | .negZero => some 0
  | .num q => some q

/-- Go's `<` on floats: false whenever an operand is NaN; the two zeros
compare equal. -/
def GoFloat.lt (a b : GoFloat) : Bool :=
  match a.toRatOpt, b.toRatOpt with
  | some x, some y => decide (x < y)
  | _, _ => false

/-- Go's `<=` on floats: false whenever an operand is NaN; the two zeros
compare equal. -/
def GoFloat.le (a b : GoFloat) : Bool :=
  match a.toRatOpt, b.toRatOpt with
  | some x, some y => decide (x ≤ y)
  | _, _ => false

/-- Go's builtin `min` on floats: NaN if either operand is NaN; negative zero
is smaller than positive zero. -/
def goMin : GoFloat → GoFloat → GoFloat
  | .nan, _ => .nan
  | _, .nan => .nan
  | .negZero, .negZero => .negZero
  | .negZero, .num q => if q < 0 then .num q else .negZero
  | .num q, .negZero => if q < 0 then .num q else .negZero
  | .num a, .num b => if a ≤ b then .num a else .num b

/-- Go's builtin `max` on floats: NaN if either operand is NaN; positive zero
is larger than negative zero. -/
def goMax : GoFloat → GoFloat → GoFloat
  | .nan, _ => .nan
  | _, .nan => .nan
  | .negZero, .negZero => .negZero
  | .negZero, .num q => if 0 ≤ q then .num q else .negZero
  | .num q, .negZero => if 0 ≤ q then .num q else .negZero
  | .num a, .num b => if a ≤ b then .num b else .num a

/-- A float sample point (`promql.FPoint`): timestamp and value. -/
structure FPoint where
  T : Int
  F : GoFloat
deriving DecidableEq, Repr, Inhabited

/-- A histogram sample point (`promql.HPoint`): timestamp and an opaque
histogram payload — the functions under verification never inspect it. -/
structure HPoint where
  T : Int
  H : Int
deriving DecidableEq, Repr, Inhabited

/-- `types.InstantVectorSeriesData`: the float and histogram points of one
series. -/
structure InstantVectorSeriesData where
  Floats : List FPoint
  Histograms : List HPoint
deriving DecidableEq, Repr, Inhabited

/-- `types.ScalarData`: one sample per time step. -/
structure ScalarData where
  Samples : List FPoint
deriving DecidableEq, Repr, Inhabited

/-- The loop of `Clamp` over `seriesData.Floats`: at step `step` it reads
`minArg.Samples[step].F` and `maxArg.Samples[step].F`, drops the point when
`maxVal < minVal`, and otherwise emits the point with value
`max(minVal, min(maxVal, data.F))` and the original timestamp.  Indexing past
the end of a scalar's samples panics in Go, modelled as `none`. -/
def clampLoop (minS maxS : List FPoint) : Nat → List FPoint → Option (List FPoint)
  | _, [] => some []
  | step, p :: rest =>
      match minS.get? step, maxS.get? step with
      | some mn, some mx =>
          if GoFloat.lt mx.F mn.F then clampLoop minS maxS (step + 1) rest
          else
            match clampLoop minS maxS (step + 1) rest with
            | some out => some (⟨p.T, goMax mn.F (goMin mx.F p.F)⟩ :: out)
            | none => none
      | _, _ => none

/-- `Clamp` from `math.go`: clamps each float point of the series between the
per-step values of the two scalar arguments, dropping points whose bounds are
inverted, and drops all histograms; it always returns a nil error (the inner
`Option String` slot).  The outer `Option` is `none` exactly when the Go code
would panic on out-of-range scalar indexing. -/
def Clamp (seriesData : InstantVectorSeriesData) (minArg maxArg : ScalarData) :
    Option (InstantVectorSeriesData × Option String) :=
  match clampLoop minArg.Samples maxArg.Samples 0 seriesData.Floats with
  | some fl => some (⟨fl, []⟩, none)
  | none => none

/-- The scalar transformation inside `Sgn` from `math.go`:
`if f < 0 return -1; if f > 0 return 1; return f`. -/
def sgnFloat (f : GoFloat) : GoFloat :=
  if GoFloat.lt f (.num 0) then .num (-1)
  else if GoFloat.lt (.num 0) f then .num 1
  else f

/-- Specification-side description of `Clamp`'s float output, against which the
indexed loop of the source is compared: walk the pointwise zip of the series'
floats with the two scalars' samples, drop a point when `max < min`, and
otherwise emit `max(min, min(max, f))` with the original timestamp. -/
def clampSpecFloats : List (FPoint × FPoint × FPoint) → List FPoint
  | [] => []
  | (p, mn, mx) :: rest =>
      if GoFloat.lt mx.F mn.F then clampSpecFloats rest
      else ⟨p.T, goMax mn.F (goMin mx.F p.F)⟩ :: clampSpecFloats rest

theorem clampLoop_eq_spec (minS maxS : List FPoint) (l : List FPoint) :
    ∀ i : Nat, i + l.length ≤ minS.length → i + l.length ≤ maxS.length →
      clampLoop minS maxS i l =
        some (clampSpecFloats (l.zip ((minS.drop i).zip (maxS.drop i)))) := by
  induction l with
  | nil => intro i _ _; simp [clampLoop, clampSpecFloats]
  | cons p rest ih =>
      intro i hmin hmax
      have hi1 : i < minS.length := by simp at hmin; omega
      have hi2 : i < maxS.length := by simp at hmax; omega
      have hrec := ih (i + 1) (by simp at hmin ⊢; omega) (by simp at hmax ⊢; omega)
      rw [List.drop_eq_getElem_cons hi1, List.drop_eq_getElem_cons hi2, List.zip_cons_cons]
      simp only [clampLoop, List.get?_eq_getElem?, List.getElem?_eq_getElem hi1,
        List.getElem?_eq_getElem hi2, hrec, clampSpecFloats]
      by_cases hlt : GoFloat.lt maxS[i].F minS[i].F = true <;> simp [hlt, List.zip]

/-- The numeric value of a non-NaN float (both zeros map to `0`). -/
def GoFloat.val (f : GoFloat) : ℚ :=
  f.toRatOpt.getD 0

theorem goMin_ne_nan {a b : GoFloat} (ha : a ≠ .nan) (hb : b ≠ .nan) :
    goMin a b ≠ .nan := by
  cases a <;> cases b <;> simp_all [goMin] <;> split_ifs <;> simp

theorem goMax_ne_nan {a b : GoFloat} (ha : a ≠ .nan) (hb : b ≠ .nan) :
    goMax a b ≠ .nan := by
  cases a <;> cases b <;> simp_all [goMax] <;> split_ifs <;> simp

theorem val_goMin {a b : GoFloat} (ha : a ≠ .nan) (hb : b ≠ .nan) :
    (goMin a b).val = min a.val b.val := by
  cases a with
  | nan => exact absurd rfl ha
  | negZero =>
      cases b with
      | nan => exact absurd rfl hb
      | negZero => simp [goMin, GoFloat.val, GoFloat.toRatOpt]
      | num q =>
          simp only [goMin]
          split_ifs with h
          · simp only [GoFloat.val, GoFloat.toRatOpt, Option.getD_some]
            exact (min_eq_right (le_of_lt h)).symm
          · simp only [GoFloat.val, GoFloat.toRatOpt, Option.getD_some]
            exact (min_eq_left (le_of_not_lt h)).symm
  | num q =>
      cases b with
      | nan => exact absurd rfl hb
      | negZero =>
          simp only [goMin]
          split_ifs with h
          · simp only [GoFloat.val, GoFloat.toRatOpt, Option.getD_some]
            exact (min_eq_left (le_of_lt h)).symm
          · simp only [GoFloat.val, GoFloat.toRatOpt, Option.getD_some]
            exact (min_eq_right (le_of_not_lt h)).symm
      | num r =>
          simp only [goMin]
          split_ifs with h
          · simp only [GoFloat.val, GoFloat.toRatOpt, Option.getD_some]
            exact (min_eq_left h).symm
          · simp only [GoFloat.val, GoFloat.toRatOpt, Option.getD_some]
            exact (min_eq_right (le_of_not_le h)).symm

theorem val_goMax {a b : GoFloat} (ha : a ≠ .nan) (hb : b ≠ .nan) :
    (goMax a b).val = max a.val b.val := by
  cases a with
  | nan => exact absurd rfl ha
  | negZero =>
      cases b with
      | nan => exact absurd rfl hb
      | negZero => simp [goMax, GoFloat.val, GoFloat.toRatOpt]
      | num q =>
          simp only [goMax]
          split_ifs with h
          · simp only [GoFloat.val, GoFloat.toRatOpt, Option.getD_some]
            exact (max_eq_right h).symm
          · simp only [GoFloat.val, GoFloat.toRatOpt, Option.getD_some]
            exact (max_eq_left (le_of_not_le h)).symm
  | num q =>
      cases b with
      | nan => exact absurd rfl hb
      | negZero =>
          simp only [goMax]
          split_ifs with h
          · simp only [GoFloat.val, GoFloat.toRatOpt, Option.getD_some]
            exact (max_eq_left h).symm
          · simp only [GoFloat.val, GoFloat.toRatOpt, Option.getD_some]
            exact (max_eq_right (le_of_not_le h)).symm
      | num r =>
          simp only [goMax]
          split_ifs with h
          · simp only [GoFloat.val, GoFloat.toRatOpt, Option.getD_some]
            exact (max_eq_right h).symm
          · simp only [GoFloat.val, GoFloat.toRatOpt, Option.getD_some]
            exact (max_eq_left (le_of_not_le h)).symm

theorem lt_eq_val {a b : GoFloat} (ha : a ≠ .nan) (hb : b ≠ .nan) :
    GoFloat.lt a b = decide (a.val < b.val) := by
  cases a <;> cases b <;> simp_all [GoFloat.lt, GoFloat.toRatOpt, GoFloat.val]

theorem le_eq_val {a b : GoFloat} (ha : a ≠ .nan) (hb : b ≠ .nan) :
    GoFloat.le a b = decide (a.val ≤ b.val) := by
  cases a <;> cases b <;> simp_all [GoFloat.le, GoFloat.toRatOpt, GoFloat.val]

/-- C9 fails as stated: with `min = 0`, `max = 1` and a NaN sample, the point
is kept and its output value `max(0, min(1, NaN)) = NaN` does not lie in
`[0, 1]` under float comparison (the series' histogram is still dropped and no
error is returned). -/
theorem C9_counterexample :
    Clamp ⟨[⟨0, .nan⟩], [⟨0, 7⟩]⟩ ⟨[⟨0, .num 0⟩]⟩ ⟨[⟨0, .num 1⟩]⟩ =
      some (⟨[⟨0, .nan⟩], []⟩, none) ∧
    GoFloat.le (.num 0) .nan = false ∧ GoFloat.le .nan (.num 1) = false := by
  exact ⟨rfl, rfl, rfl⟩

/-- C9 (amended): with a scalar sample available for every float step, `Clamp`
returns no error, removes all histograms, drops exactly the points whose step
has `max < min`, and gives every kept point the value `max(min, min(max, f))`
with its original timestamp; that value lies in `[min, max]` whenever `min`,
`max` and `f` are all non-NaN. -/
theorem C9_clamp (sd : InstantVectorSeriesData) (minA maxA : ScalarData)
    (hmin : sd.Floats.length ≤ minA.Samples.length)
    (hmax : sd.Floats.length ≤ maxA.Samples.length) :
    Clamp sd minA maxA =
      some (⟨clampSpecFloats (sd.Floats.zip (minA.Samples.zip maxA.Samples)), []⟩, none) ∧
    (∀ p mn mx : GoFloat, p ≠ .nan → mn ≠ .nan → mx ≠ .nan →
      GoFloat.lt mx mn = false →
      GoFloat.le mn (goMax mn (goMin mx p)) = true ∧
      GoFloat.le (goMax mn (goMin mx p)) mx = true) := by
  constructor
  · unfold Clamp
    rw [clampLoop_eq_spec minA.Samples maxA.Samples sd.Floats 0 (by simpa) (by simpa)]
    simp
  · intro p mn mx hp hmn hmx hlt
    have h1 : ¬ mx.val < mn.val := by
      rw [lt_eq_val hmx hmn] at hlt
      simpa using hlt
    have hn1 : goMin mx p ≠ .nan := goMin_ne_nan hmx hp
    have hn2 : goMax mn (goMin mx p) ≠ .nan := goMax_ne_nan hmn hn1
    constructor
    · rw [le_eq_val hmn hn2, val_goMax hmn hn1]
      simp
    · rw [le_eq_val hn2 hmx, val_goMax hmn hn1, val_goMin hmx hp]
      simp only [decide_eq_true_eq]
      exact max_le (le_of_not_lt h1) (le_trans (min_le_left _ _) (le_refl _))

/-- Witness for C9 on a one-point series with `min = 0`, `max = 1`, `f = 5`
(and one histogram, which is dropped): the point is clamped to `1`. -/
theorem C9_witness :
    Clamp ⟨[⟨0, .num 5⟩], [⟨0, 7⟩]⟩ ⟨[⟨0, .num 0⟩]⟩ ⟨[⟨0, .num 1⟩]⟩ =
      some (⟨[⟨0, .num 1⟩], []⟩, none) :=
  (C9_clamp ⟨[⟨0, .num 5⟩], [⟨0, 7⟩]⟩ ⟨[⟨0, .num 0⟩]⟩ ⟨[⟨0, .num 1⟩]⟩
    (by decide) (by decide)).1

/-- C10: the `Sgn` transformation returns `-1` when `f < 0`, `1` when `f > 0`,
and otherwise `f` itself — so both zeros are returned unchanged (preserving
the sign of zero) and `Sgn(NaN) = NaN`, which is none of `-1`, `0`, `1`. -/
theorem C10_sgn :
    (∀ f : GoFloat, GoFloat.lt f (.num 0) = true → sgnFloat f = .num (-1)) ∧
    (∀ f : GoFloat, GoFloat.lt (.num 0) f = true → sgnFloat f = .num 1) ∧
    (∀ f : GoFloat, GoFloat.lt f (.num 0) = false → GoFloat.lt (.num 0) f = false →
      sgnFloat f = f) ∧
    sgnFloat (.num 0) = .num 0 ∧ sgnFloat .negZero = .negZero ∧
    sgnFloat .nan = .nan ∧
    sgnFloat .nan ≠ .num (-1) ∧ sgnFloat .nan ≠ .num 0 ∧ sgnFloat .nan ≠ .num 1 := by
  refine ⟨?_, ?_, ?_, by rfl, by rfl, by rfl, by decide, by decide, by decide⟩
  · intro f h
    simp [sgnFloat, h]
  · intro f h
    have hne : GoFloat.lt f (.num 0) = false := by
      cases f <;> simp_all [GoFloat.lt, GoFloat.toRatOpt] <;> linarith
    simp [sgnFloat, hne, h]
  · intro f h1 h2
    simp [sgnFloat, h1, h2]

/-- Witness for C10 at `f = -5`. -/
theorem C10_witness : sgnFloat (.num (-5)) = .num (-1) :=
  C10_sgn.1 (.num (-5)) (by decide)

end Functions
